import Mathlib

/-!
Verification model of the `esi` crate (gustafnk/esi, file `src/esi/src/lib.rs`).

The crate post-processes an HTML-like document: it parses the document into a
stream of markup events (via the external `quick_xml` reader), recognizes ESI
instruction tags among them, executes `esi:include` instructions against an
abstract fetch client, and re-serializes the result.

Modelling conventions:
* The external `quick_xml` reader is modelled by its output: a list of
  `ReadResult`s (an event, or a reader error).  The end of the list plays the
  role of the final `Eof` the real reader would keep returning.
* Bytes are `Nat`s; Rust `Vec<u8>` and `String` are `List Nat`.  Rust's
  `String::from_utf8(..).unwrap()` is modelled faithfully: it panics (the
  `PResult.panic` outcome) when the bytes are not valid UTF-8.
* Rust `HashMap` is modelled by an association list; `hmInsert` returns the
  previous value exactly as `HashMap::insert` does.  `Option::unwrap` on that
  returned value is modelled by matching: `none` means the real program panics.
* `quick_xml`'s `Writer::write_event` is modelled by `serializeEvent`: each
  event carries the raw bytes the writer would emit for it, and (model
  assumption, used for the byte-for-byte round-trip claim) the reader consumed
  exactly those serialized bytes when it produced the event.
-/

/-- Byte list of an ASCII string literal (used only on ASCII literals). -/
def bytesOf (s : String) : List Nat :=
  s.data.map Char.toNat

/-- Whether a byte is a UTF-8 continuation byte (0x80 to 0xBF). -/
def utf8Cont (b : Nat) : Bool :=
  decide (0x80 ≤ b ∧ b ≤ 0xBF)

/-- UTF-8 validity of a byte sequence, as checked by Rust's
`String::from_utf8` (including overlong-encoding and surrogate rejection). -/
def validUtf8 : List Nat → Bool
  | [] => true
  | b :: rest =>
    if b ≤ 0x7F then validUtf8 rest
    else
      match rest with
      | [] => false
      | c :: rest2 =>
        if 0xC2 ≤ b ∧ b ≤ 0xDF then utf8Cont c && validUtf8 rest2
        else
          match rest2 with
          | [] => false
          | d :: rest3 =>
            if b = 0xE0 then
              decide (0xA0 ≤ c ∧ c ≤ 0xBF) && utf8Cont d && validUtf8 rest3
            else if (0xE1 ≤ b ∧ b ≤ 0xEC) ∨ b = 0xEE ∨ b = 0xEF then
              utf8Cont c && utf8Cont d && validUtf8 rest3
            else if b = 0xED then
              decide (0x80 ≤ c ∧ c ≤ 0x9F) && utf8Cont d && validUtf8 rest3
            else
              match rest3 with
              | [] => false
              | e :: rest4 =>
                if b = 0xF0 then
                  decide (0x90 ≤ c ∧ c ≤ 0xBF) && utf8Cont d && utf8Cont e
                    && validUtf8 rest4
                else if 0xF1 ≤ b ∧ b ≤ 0xF3 then
                  utf8Cont c && utf8Cont d && utf8Cont e && validUtf8 rest4
                else if b = 0xF4 then
                  decide (0x80 ≤ c ∧ c ≤ 0x8F) && utf8Cont d && utf8Cont e
                    && validUtf8 rest4
                else false

/-- Rust slice `starts_with`: does the first list start with the second? -/
def listStartsWith : List Nat → List Nat → Bool
  | _, [] => true
  | [], _ :: _ => false
  | a :: as_, b :: bs => a == b && listStartsWith as_ bs

/-- Whether a byte is XML whitespace: space, tab, carriage return or line
feed — the bytes at which quick_xml ends a tag name. -/
def isXmlWs (b : Nat) : Bool :=
  b == 32 || b == 9 || b == 13 || b == 10

/-- quick_xml `BytesStart::name()`: the raw tag content up to the first XML
whitespace byte (space, tab, CR or LF), i.e. the element name without its
attribute text. -/
def xmlName (raw : List Nat) : List Nat :=
  raw.takeWhile (fun b => !isXmlWs b)

/-- The `ExecutionError` enum of the crate.  `XMLError` wraps the external
`quick_xml::Error`, modelled by an abstract numeric code; the string payloads
of the other constructors are byte lists. -/
inductive ExecutionError where
  | XMLError (code : Nat)
  | MissingRequiredParameter (tag param : List Nat)
  | UnexpectedClosingTag (name : List Nat)
  | DuplicateTagAttribute (name : List Nat)
  | Unknown
deriving DecidableEq

/-- Outcome of running a piece of the program: a value, an `ExecutionError`
(Rust `Err`), or a Rust panic (`unwrap` on `None` / invalid UTF-8). -/
inductive PResult (α : Type) where
  | ok (value : α)
  | err (error : ExecutionError)
  | panic
deriving DecidableEq

/-- The `Request` struct: a URL. -/
structure Request where
  url : List Nat
deriving DecidableEq

/-- `Request::from_url`. -/
def Request.from_url (u : List Nat) : Request :=
  ⟨u⟩

/-- The `Response` struct: body bytes and a status code. -/
structure Response where
  body : List Nat
  status_code : Nat
deriving DecidableEq

/-- The `ExecutionContext` trait: one operation sending a `Request`.  The
external collaborator returns `Result<Response>`; it does not panic. -/
def ExecutionContext : Type :=
  Request → Except ExecutionError Response

/-- A markup event, as produced by the external `quick_xml` reader.
`start`/`end_`/`empty` carry the raw bytes between the angle brackets
(name plus attribute text); `empty` additionally carries the attribute
list as written in that raw text, in order, names possibly repeated (the
checked delivery of quick_xml's attribute iterator is modelled separately
by `attrs_flatten`); `text` carries the escaped text bytes; `other` covers
all remaining event kinds (comments, CData, declarations, processing
instructions), carrying their full serialized form. -/
inductive XEvent where
  | start (raw : List Nat)
  | end_ (raw : List Nat)
  | empty (raw : List Nat) (attrs : List (List Nat × List Nat))
  | text (raw : List Nat)
  | other (raw : List Nat)
  | eof
deriving DecidableEq

/-- One `reader.read_event` outcome: an event, or a `quick_xml` error. -/
inductive ReadResult where
  | ok (e : XEvent)
  | err (code : Nat)
deriving DecidableEq

/-- The `Tag` struct: name, optional content, and parameter map (modelled as
an association list standing for the `HashMap`). -/
structure Tag where
  name : List Nat
  content : Option (List Nat)
  parameters : List (List Nat × List Nat)
deriving DecidableEq

/-- The `TagEntry` struct: a passthrough event or a parsed ESI tag. -/
structure TagEntry where
  event : Option XEvent
  esi_tag : Option Tag
deriving DecidableEq

/-- `HashMap::get` on the association-list model. -/
def hmGet {κ ν : Type} [DecidableEq κ] : List (κ × ν) → κ → Option ν
  | [], _ => none
  | (k0, v0) :: rest, k => if k0 = k then some v0 else hmGet rest k

/-- `HashMap::insert` on the association-list model: stores the value and
returns the new map together with the previous value at that key (exactly
`HashMap::insert`'s return value). A new key is appended at the end. -/
def hmInsert {κ ν : Type} [DecidableEq κ] :
    List (κ × ν) → κ → ν → List (κ × ν) × Option ν
  | [], k, v => ([(k, v)], none)
  | (k0, v0) :: rest, k, v =>
    if k0 = k then ((k0, v) :: rest, some v0)
    else
      match hmInsert rest k v with
      | (m, old) => ((k0, v0) :: m, old)

/-- `Tag::get_param`: looks up a parameter and converts it to a `String` via
`String::from_utf8(value).unwrap()` — panicking when the stored bytes are
not valid UTF-8. -/
def Tag.get_param (t : Tag) (key : List Nat) : PResult (Option (List Nat)) :=
  match hmGet t.parameters key with
  | none => .ok none
  | some v => if validUtf8 v then .ok (some v) else .panic

/-- The attributes the external `bytes.attributes().flatten()` iteration
delivers, given the attribute list as written in the tag text and the names
already seen: quick_xml's attribute iterator runs with its uniqueness checks
on by default, so a repeated attribute name is yielded as
`Err(DuplicatedAttribute)`, which `.flatten()` silently discards — only the
first occurrence of each name is delivered, in order. -/
def attrs_flatten_from (seen : List (List Nat)) :
    List (List Nat × List Nat) → List (List Nat × List Nat)
  | [] => []
  | (k, v) :: rest =>
    if k ∈ seen then attrs_flatten_from seen rest
    else (k, v) :: attrs_flatten_from (k :: seen) rest

/-- The checked-and-flattened attribute iteration, starting with no names
seen. -/
def attrs_flatten (attrs : List (List Nat × List Nat)) :
    List (List Nat × List Nat) :=
  attrs_flatten_from [] attrs

/-- The body of `parse_attributes`'s loop over the delivered attributes, with
the map built so far: each attribute is inserted; if `insert` reports a
previous value, the function returns `DuplicateTagAttribute` with the key
converted via `String::from_utf8(..).unwrap()` (a panic when the key is not
valid UTF-8).  Because the iterator never delivers a repeated name, this
branch is unreachable from `parse_attributes` (see
`duplicate_attribute_unreachable`). -/
def parse_attributes_from :
    List (List Nat × List Nat) → List (List Nat × List Nat) →
    PResult (List (List Nat × List Nat))
  | m, [] => .ok m
  | m, (k, v) :: rest =>
    match hmInsert m k v with
    | (_, some _) =>
      if validUtf8 k then .err (.DuplicateTagAttribute k) else .panic
    | (m2, none) => parse_attributes_from m2 rest

/-- `parse_attributes`: builds the attribute map of a tag by iterating
`bytes.attributes().flatten()` (modelled by `attrs_flatten`) and inserting
each delivered attribute. -/
def parse_attributes (attrs : List (List Nat × List Nat)) :
    PResult (List (List Nat × List Nat)) :=
  parse_attributes_from [] (attrs_flatten attrs)

/-- Prepends an entry to the entries produced by the rest of the parse loop,
propagating error and panic outcomes (the `events.push` of the source together
with the loop's early returns). -/
def pcons (entry : TagEntry) :
    PResult (List TagEntry) → PResult (List TagEntry)
  | .ok es => .ok (entry :: es)
  | .err e => .err e
  | .panic => .panic

/-- The `parse_tag_entries` loop over the reader's events, with the current
remove-block flag.  Match arms in source order: a start tag whose raw bytes
begin with "esi:remove" enters the remove block; an end tag whose raw bytes
begin with "esi:remove" fails with `UnexpectedClosingTag` when no block is
open, else closes it; any event while the flag is set is discarded (this arm
precedes the `Eof` arm and the catch-all); a self-closing tag whose name
begins with "esi:" becomes an instruction entry via `parse_attributes`; `Eof`
ends the loop; any other event becomes a passthrough entry; a reader error
falls to the source's final catch-all arm and is discarded.  One deliberate
divergence: when the stream ends while the remove flag is still set, the
model returns the entries so far, whereas the real program loops forever
re-reading `Eof` (its `_ if remove` arm precedes the `Eof` arm); no theorem
below exercises that case. -/
def parse_tag_entries : Bool → List ReadResult → PResult (List TagEntry)
  | _, [] => .ok []
  | remove, r :: rest =>
    match r with
    | .ok (.start raw) =>
      if listStartsWith raw (bytesOf "esi:remove") then
        parse_tag_entries true rest
      else if remove then parse_tag_entries remove rest
      else pcons ⟨some (.start raw), none⟩ (parse_tag_entries remove rest)
    | .ok (.end_ raw) =>
      if listStartsWith raw (bytesOf "esi:remove") then
        if remove = false then
          if validUtf8 raw then .err (.UnexpectedClosingTag raw) else .panic
        else parse_tag_entries false rest
      else if remove then parse_tag_entries remove rest
      else pcons ⟨some (.end_ raw), none⟩ (parse_tag_entries remove rest)
    | .ok (.empty raw attrs) =>
      if remove then parse_tag_entries remove rest
      else if listStartsWith (xmlName raw) (bytesOf "esi:") then
        match parse_attributes attrs with
        | .ok params =>
          pcons ⟨none, some ⟨xmlName raw, none, params⟩⟩
            (parse_tag_entries remove rest)
        | .err e => .err e
        | .panic => .panic
      else pcons ⟨some (.empty raw attrs), none⟩ (parse_tag_entries remove rest)
    | .ok (.text raw) =>
      if remove then parse_tag_entries remove rest
      else pcons ⟨some (.text raw), none⟩ (parse_tag_entries remove rest)
    | .ok (.other raw) =>
      if remove then parse_tag_entries remove rest
      else pcons ⟨some (.other raw), none⟩ (parse_tag_entries remove rest)
    | .ok .eof =>
      if remove then parse_tag_entries remove rest else .ok []
    | .err _ => parse_tag_entries remove rest

/-- `send_request`: try the primary `src`; on failure try `alt` when present;
when the fallback fails too (or there is none) propagate the primary error. -/
def send_request (client : ExecutionContext) (src : List Nat)
    (alt : Option (List Nat)) : Except ExecutionError Response :=
  match client (Request.from_url src) with
  | .ok resp => .ok resp
  | .error err =>
    match alt with
    | some alt2 =>
      match client (Request.from_url alt2) with
      | .ok resp => .ok resp
      | .error _ => .error err
    | none => .error err

/-- Instrumented variant of `send_request` with the same branch structure,
additionally returning the list of URLs the client was asked for, in order.
Used to state that the fallback is (or is not) attempted. -/
def send_request_traced (client : ExecutionContext) (src : List Nat)
    (alt : Option (List Nat)) :
    Except ExecutionError Response × List (List Nat) :=
  match client (Request.from_url src) with
  | .ok resp => (.ok resp, [src])
  | .error err =>
    match alt with
    | some alt2 =>
      match client (Request.from_url alt2) with
      | .ok resp => (.ok resp, [src, alt2])
      | .error _ => (.error err, [src, alt2])
    | none => (.error err, [src])

/-- The `execute_tag_entries` loop with the running entry index and the map
built so far.  For an `esi:include` tag: read `src` (failing with
`MissingRequiredParameter` when absent, the tag name passing through
`String::from_utf8(..).unwrap()`), read `alt`, resolve via `send_request`;
on success run `map.insert(index, resp.body).unwrap()` — modelled exactly:
when `insert` returns no previous value the `unwrap` panics; on failure,
when `onerror == "continue"` run `map.insert(index, vec![]).unwrap()` (same
unwrap), otherwise propagate the fetch error. -/
def execute_entries_from (client : ExecutionContext) :
    List TagEntry → Nat → List (Nat × List Nat) →
    PResult (List (Nat × List Nat))
  | [], _, map => .ok map
  | entry :: rest, index, map =>
    match entry.esi_tag with
    | some tag =>
      if tag.name = bytesOf "esi:include" then
        match tag.get_param (bytesOf "src") with
        | .panic => .panic
        | .err e => .err e
        | .ok none =>
          if validUtf8 tag.name then
            .err (.MissingRequiredParameter tag.name (bytesOf "src"))
          else .panic
        | .ok (some src) =>
          match tag.get_param (bytesOf "alt") with
          | .panic => .panic
          | .err e => .err e
          | .ok alt =>
            match send_request client src alt with
            | .ok resp =>
              match hmInsert map index resp.body with
              | (m2, some _) => execute_entries_from client rest (index + 1) m2
              | (_, none) => .panic
            | .error e =>
              match tag.get_param (bytesOf "onerror") with
              | .panic => .panic
              | .err e2 => .err e2
              | .ok (some onerror) =>
                if onerror = bytesOf "continue" then
                  match hmInsert map index [] with
                  | (m2, some _) =>
                    execute_entries_from client rest (index + 1) m2
                  | (_, none) => .panic
                else .err e
              | .ok none => .err e
      else execute_entries_from client rest (index + 1) map
    | none => execute_entries_from client rest (index + 1) map

/-- `execute_tag_entries`: runs the loop from index 0 with an empty map. -/
def execute_tag_entries (entries : List TagEntry)
    (client : ExecutionContext) : PResult (List (Nat × List Nat)) :=
  execute_entries_from client entries 0 []

/-- quick_xml `Writer::write_event` output for one event: `<raw>` for a start
tag, `</raw>` for an end tag, `<raw/>` for a self-closing tag, the raw bytes
for text; `other` events carry their full serialized form; `Eof` writes
nothing. -/
def serializeEvent : XEvent → List Nat
  | .start raw => 60 :: (raw ++ [62])
  | .end_ raw => 60 :: 47 :: (raw ++ [62])
  | .empty raw _ => 60 :: (raw ++ [47, 62])
  | .text raw => raw
  | .other raw => raw
  | .eof => []

/-- The output-building loop of `transform_esi_string`: entries with an ESI
tag emit the resolved content at their index when the executor recorded one
(as pre-escaped text, written raw) and nothing otherwise; passthrough entries
emit their original event. -/
def build_output : List TagEntry → Nat → List (Nat × List Nat) → List Nat
  | [], _, _ => []
  | entry :: rest, index, results =>
    (match entry.esi_tag with
     | some _ =>
       match hmGet results index with
       | some content => content
       | none => []
     | none =>
       match entry.event with
       | some ev => serializeEvent ev
       | none => []) ++ build_output rest (index + 1) results

/-- `transform_esi_string`: parse the event stream, execute the include
instructions, and re-serialize, propagating failures of either stage. -/
def transform_esi_string (stream : List ReadResult)
    (client : ExecutionContext) : PResult (List Nat) :=
  match parse_tag_entries false stream with
  | .err e => .err e
  | .panic => .panic
  | .ok events =>
    match execute_tag_entries events client with
    | .err e => .err e
    | .panic => .panic
    | .ok results => .ok (build_output events 0 results)

/-- Events that take the parser's passthrough arm when no remove block is
open: neither an "esi:remove" start or end tag, nor a self-closing "esi:"
tag, nor `Eof`, nor a reader error. -/
def passthroughResult : ReadResult → Bool
  | .ok (.start raw) => !listStartsWith raw (bytesOf "esi:remove")
  | .ok (.end_ raw) => !listStartsWith raw (bytesOf "esi:remove")
  | .ok (.empty raw _) => !listStartsWith (xmlName raw) (bytesOf "esi:")
  | .ok (.text _) => true
  | .ok (.other _) => true
  | .ok .eof => false
  | .err _ => false

/-- The entry a passthrough event becomes (reader errors, excluded by
`passthroughResult`, map to an inert entry so the function is total). -/
def passEntry : ReadResult → TagEntry
  | .ok e => ⟨some e, none⟩
  | .err _ => ⟨none, none⟩

/-- The input bytes a reader-produced stream stands for: the concatenation of
each event's serialized form (model assumption: the reader consumed exactly
these bytes). -/
def renderStream (s : List ReadResult) : List Nat :=
  (s.map (fun r =>
    match r with
    | .ok e => serializeEvent e
    | .err _ => [])).flatten

/-- Extracts the value of an `ok` outcome, with a default otherwise; used
only to state the iterated-application claim. -/
def presultGetD {α : Type} : PResult α → α → α
  | .ok a, _ => a
  | .err _, d => d
  | .panic, d => d

/-- A fetch client that fails every request with `Unknown`. -/
def clientFail : ExecutionContext :=
  fun _ => .error .Unknown

/-- A fetch client that answers every request with body "BODY". -/
def clientBody : ExecutionContext :=
  fun _ => .ok ⟨bytesOf "BODY", 200⟩

/-- A fetch client that fails for URL "A" and answers "B" elsewhere. -/
def clientAfails : ExecutionContext :=
  fun req => if req.url = bytesOf "A" then .error .Unknown
             else .ok ⟨bytesOf "B", 200⟩

/-- A reader that turns the document bytes "hi" into its event stream. -/
def readHi : List Nat → List ReadResult :=
  fun b => if b = bytesOf "hi" then [.ok (.text (bytesOf "hi"))] else []

/-- Prepends a list of entries to a parse outcome. -/
def pconsMany (es : List TagEntry) :
    PResult (List TagEntry) → PResult (List TagEntry)
  | .ok l => .ok (es ++ l)
  | .err e => .err e
  | .panic => .panic

/-- Events that, inside a remove block, can never close it: anything except
an "esi:remove" end tag (and except `Eof`, which in a reader-produced stream
occurs only at the very end). -/
def notRemoveEndOrEof : ReadResult → Bool
  | .ok (.end_ raw) => !listStartsWith raw (bytesOf "esi:remove")
  | .ok .eof => false
  | _ => true

/-- Whether a parse outcome is an `UnexpectedClosingTag` error. -/
def isUnexpectedClosingErr : PResult (List TagEntry) → Bool
  | .err (.UnexpectedClosingTag _) => true
  | _ => false

/-- Whether an attribute-extraction outcome is a `DuplicateTagAttribute`
error. -/
def isDuplicateAttrErr : PResult (List (List Nat × List Nat)) → Bool
  | .err (.DuplicateTagAttribute _) => true
  | _ => false

theorem hmInsert_snd_eq {κ ν : Type} [DecidableEq κ]
    (m : List (κ × ν)) (k : κ) (v : ν) :
    (hmInsert m k v).2 = hmGet m k := by
  induction m with
  | nil => rfl
  | cons p rest ih =>
    obtain ⟨k0, v0⟩ := p
    by_cases h : k0 = k
    · simp [hmInsert, hmGet, h]
    · rcases hr : hmInsert rest k v with ⟨m2, old⟩
      rw [hr] at ih
      simp [hmInsert, hmGet, h, hr]
      exact ih

theorem hmGet_eq_none_iff {κ ν : Type} [DecidableEq κ]
    (m : List (κ × ν)) (k : κ) :
    hmGet m k = none ↔ k ∉ m.map Prod.fst := by
  induction m with
  | nil => simp [hmGet]
  | cons p rest ih =>
    obtain ⟨k0, v0⟩ := p
    by_cases h : k0 = k
    · simp [hmGet, h]
    · simp [hmGet, h, ih, Ne.symm h]

theorem hmInsert_of_get_none {κ ν : Type} [DecidableEq κ]
    {m : List (κ × ν)} {k : κ} (v : ν) (h : hmGet m k = none) :
    hmInsert m k v = (m ++ [(k, v)], none) := by
  induction m with
  | nil => rfl
  | cons p rest ih =>
    obtain ⟨k0, v0⟩ := p
    by_cases hk : k0 = k
    · simp [hmGet, hk] at h
    · simp [hmGet, hk] at h
      simp [hmInsert, hk, ih h]

theorem parse_pass_cons (e : XEvent) (rest : List ReadResult)
    (h : passthroughResult (.ok e) = true) :
    parse_tag_entries false (.ok e :: rest)
      = pcons ⟨some e, none⟩ (parse_tag_entries false rest) := by
  cases e with
  | start raw =>
    simp only [passthroughResult, Bool.not_eq_true'] at h
    simp [parse_tag_entries, h]
  | end_ raw =>
    simp only [passthroughResult, Bool.not_eq_true'] at h
    simp [parse_tag_entries, h]
  | empty raw attrs =>
    simp only [passthroughResult, Bool.not_eq_true'] at h
    simp [parse_tag_entries, h]
  | text raw => simp [parse_tag_entries]
  | other raw => simp [parse_tag_entries]
  | eof => simp [passthroughResult] at h

theorem parse_pass_append (pre rest : List ReadResult)
    (h : ∀ r ∈ pre, passthroughResult r = true) :
    parse_tag_entries false (pre ++ rest)
      = pconsMany (pre.map passEntry) (parse_tag_entries false rest) := by
  induction pre with
  | nil =>
    cases hp : parse_tag_entries false rest <;> simp [pconsMany, hp]
  | cons r pre ih =>
    have hr : passthroughResult r = true := h r (List.mem_cons_self r pre)
    have htail : ∀ x ∈ pre, passthroughResult x = true :=
      fun x hx => h x (List.mem_cons_of_mem r hx)
    cases r with
    | err c => simp [passthroughResult] at hr
    | ok e =>
      rw [List.cons_append, parse_pass_cons e _ hr, ih htail]
      cases parse_tag_entries false rest <;> simp [pcons, pconsMany, passEntry]

theorem exec_skip (client : ExecutionContext)
    (entries rest : List TagEntry) (m : List (Nat × List Nat))
    (h : ∀ en ∈ entries, en.esi_tag = none) :
    ∀ i, execute_entries_from client (entries ++ rest) i m
      = execute_entries_from client rest (i + entries.length) m := by
  induction entries with
  | nil => intro i; simp
  | cons en entries ih =>
    intro i
    have he : en.esi_tag = none := h en (List.mem_cons_self en entries)
    have htail : ∀ x ∈ entries, x.esi_tag = none :=
      fun x hx => h x (List.mem_cons_of_mem en hx)
    rw [List.cons_append]
    show execute_entries_from client (en :: (entries ++ rest)) i m = _
    rw [execute_entries_from]
    rw [he]
    rw [ih htail (i + 1)]
    have : i + 1 + entries.length = i + (entries.length + 1) := by omega
    rw [this]
    rfl

theorem build_pass (s : List ReadResult) :
    ∀ (i : Nat) (results : List (Nat × List Nat)),
      build_output (s.map passEntry) i results = renderStream s := by
  induction s with
  | nil => intro i results; rfl
  | cons r s ih =>
    intro i results
    cases r with
    | ok e => simp [build_output, passEntry, renderStream, ih]
    | err c => simp [build_output, passEntry, renderStream, ih]

theorem parse_skip_in_remove (mid : List ReadResult)
    (h : ∀ r ∈ mid, notRemoveEndOrEof r = true) (rest : List ReadResult) :
    parse_tag_entries true (mid ++ rest) = parse_tag_entries true rest := by
  induction mid with
  | nil => rfl
  | cons r mid ih =>
    have hr : notRemoveEndOrEof r = true := h r (List.mem_cons_self r mid)
    have htail : ∀ x ∈ mid, notRemoveEndOrEof x = true :=
      fun x hx => h x (List.mem_cons_of_mem r hx)
    rw [List.cons_append]
    cases r with
    | err c => simpa [parse_tag_entries] using ih htail
    | ok e =>
      cases e with
      | start raw =>
        cases hsw : listStartsWith raw (bytesOf "esi:remove") <;>
          simpa [parse_tag_entries, hsw] using ih htail
      | end_ raw =>
        simp only [notRemoveEndOrEof, Bool.not_eq_true'] at hr
        simpa [parse_tag_entries, hr] using ih htail
      | empty raw attrs => simpa [parse_tag_entries] using ih htail
      | text raw => simpa [parse_tag_entries] using ih htail
      | other raw => simpa [parse_tag_entries] using ih htail
      | eof => simp [notRemoveEndOrEof] at hr

theorem attrs_flatten_from_nodup :
    ∀ (attrs : List (List Nat × List Nat)) (seen : List (List Nat)),
      ((attrs_flatten_from seen attrs).map Prod.fst).Nodup ∧
      ∀ k ∈ (attrs_flatten_from seen attrs).map Prod.fst, k ∉ seen := by
  intro attrs
  induction attrs with
  | nil => intro seen; simp [attrs_flatten_from]
  | cons p rest ih =>
    intro seen
    obtain ⟨k, v⟩ := p
    by_cases hk : k ∈ seen
    · simpa [attrs_flatten_from, hk] using ih seen
    · have ih2 := ih (k :: seen)
      refine ⟨?_, ?_⟩
      · simp only [attrs_flatten_from, if_neg hk, List.map_cons,
          List.nodup_cons]
        refine ⟨fun hmem => ?_, ih2.1⟩
        exact (ih2.2 k hmem) (List.mem_cons_self k seen)
      · intro k2 hk2
        simp only [attrs_flatten_from, if_neg hk, List.map_cons,
          List.mem_cons] at hk2
        cases hk2 with
        | inl h => rw [h]; exact hk
        | inr h =>
          intro hseen
          exact (ih2.2 k2 h) (List.mem_cons_of_mem k hseen)

theorem parse_attributes_from_nodup_ok :
    ∀ (ds m : List (List Nat × List Nat)),
      (ds.map Prod.fst).Nodup →
      (∀ k ∈ ds.map Prod.fst, hmGet m k = none) →
      ∃ m2, parse_attributes_from m ds = .ok m2 := by
  intro ds
  induction ds with
  | nil => intro m _ _; exact ⟨m, rfl⟩
  | cons p rest ih =>
    intro m hnd hnone
    obtain ⟨k, v⟩ := p
    have hgk : hmGet m k = none := hnone k (by simp)
    have hins : hmInsert m k v = (m ++ [(k, v)], none) :=
      hmInsert_of_get_none v hgk
    simp only [List.map_cons, List.nodup_cons] at hnd
    rw [parse_attributes_from, hins]
    apply ih (m ++ [(k, v)]) hnd.2
    intro k2 hk2
    rw [hmGet_eq_none_iff]
    have h1 : k2 ∉ m.map Prod.fst := by
      rw [← hmGet_eq_none_iff]
      exact hnone k2 (by simp [hk2])
    have h2 : k2 ≠ k := fun he => hnd.1 (he ▸ hk2)
    simp [List.map_append, h1, h2]

/-- Claim C1.  The code at the failing input: for the document
`<esi:include src="/a"/>` with a fetch client that succeeds for every URL,
the transform panics instead of recording the fetched body and splicing it
into the output.  The executor runs `map.insert(index, resp.body).unwrap()`;
`HashMap::insert` returns the previous value at the key, which is `None` for
the fresh index, so the `unwrap` panics. -/
theorem include_success_panics :
    transform_esi_string
      [.ok (.empty (bytesOf "esi:include src") [(bytesOf "src", bytesOf "/a")])]
      clientBody = .panic := by
  decide

/-- Claim C2.  The code at the failing input: a markup syntax error reported
by the reader (followed by the text "x") is matched by the parser's final
catch-all arm and silently discarded — the parse still returns an entry list
and the transform still produces an output document, instead of aborting with
an `XMLError`. -/
theorem xml_error_swallowed :
    parse_tag_entries false [.err 3, .ok (.text (bytesOf "x"))]
      = .ok [⟨some (.text (bytesOf "x")), none⟩] ∧
    transform_esi_string [.err 3, .ok (.text (bytesOf "x"))] clientFail
      = .ok (bytesOf "x") := by
  constructor
  · decide
  · decide

/-- Claim C3.  The code at the failing input: for the document
`<esi:include src="/a" onerror="continue"/>` with a fetch client that fails
every request, the transform panics instead of recording an empty substitution
and succeeding: the `onerror == "continue"` branch runs
`map.insert(index, vec![]).unwrap()`, and `insert` returns `None` for the
fresh index, so the `unwrap` panics. -/
theorem onerror_continue_panics :
    transform_esi_string
      [.ok (.empty (bytesOf "esi:include src onerror")
        [(bytesOf "src", bytesOf "/a"), (bytesOf "onerror", bytesOf "continue")])]
      clientFail = .panic := by
  decide

/-- Claim C10.  A document whose include tag carries a `src` attribute value
that is not valid UTF-8 (the single byte 0xFF) makes parameter lookup panic
(`String::from_utf8(..).unwrap()` in `Tag::get_param`), so the transform
panics instead of returning an error value. -/
theorem get_param_nonutf8_panics :
    validUtf8 [255] = false ∧
    transform_esi_string
      [.ok (.empty (bytesOf "esi:include") [(bytesOf "src", [255])])]
      clientFail = .panic := by
  constructor
  · decide
  · decide

/-- Claim C4, counterexample.  The self-closing unsupported tag `<esi:foo/>`
does not become a `Passthrough` entry: the parse makes it an instruction
entry (`esi_tag` set, `event` empty), and the transform output for
`<esi:foo/>hi` is just "hi" — the tag's serialized form does not appear in
the output at all. -/
theorem unsupported_empty_tag_dropped_cex :
    parse_tag_entries false
        [.ok (.empty (bytesOf "esi:foo") []), .ok (.text (bytesOf "hi"))]
      = .ok [⟨none, some ⟨bytesOf "esi:foo", none, []⟩⟩,
             ⟨some (.text (bytesOf "hi")), none⟩] ∧
    transform_esi_string
        [.ok (.empty (bytesOf "esi:foo") []), .ok (.text (bytesOf "hi"))]
        clientFail
      = .ok (bytesOf "hi") ∧
    ¬ List.IsInfix (serializeEvent (.empty (bytesOf "esi:foo") []))
        (bytesOf "hi") := by
  refine ⟨by decide, by decide, by decide⟩

/-- Claim C6, counterexample.  For `<esi:include/>` (no `src`), the transform
fails with `MissingRequiredParameter` whose tag argument is the full
namespaced name "esi:include" — not "include" as the claim states. -/
theorem missing_src_tag_name_cex :
    transform_esi_string [.ok (.empty (bytesOf "esi:include") [])] clientFail
      = .err (.MissingRequiredParameter (bytesOf "esi:include")
          (bytesOf "src")) ∧
    bytesOf "esi:include" ≠ bytesOf "include" := by
  refine ⟨by decide, by decide⟩

/-- Claim C8, counterexample.  A remove-block end tag whose raw bytes are not
valid UTF-8 (`esi:remove` followed by 0xFF), seen while no remove block is
open, does not make the parse fail with `UnexpectedClosingTag`: the error
construction runs `String::from_utf8(..).unwrap()` on the tag bytes and
panics. -/
theorem premature_close_nonutf8_cex :
    parse_tag_entries false [.ok (.end_ (bytesOf "esi:remove" ++ [255]))]
      = .panic ∧
    isUnexpectedClosingErr (parse_tag_entries false
      [.ok (.end_ (bytesOf "esi:remove" ++ [255]))]) = false := by
  refine ⟨by decide, by decide⟩

/-- Claim C4, amended.  A self-closing ESI-namespaced tag that is not a
supported instruction becomes an instruction entry (`esi_tag` set), not a
`Passthrough` entry; since it is never executed it receives no resolved
content, and the assembler emits nothing for it — the tag is dropped from the
transform output instead of being preserved verbatim. -/
theorem unsupported_empty_tag_dropped (raw : List Nat)
    (attrs params : List (List Nat × List Nat)) (client : ExecutionContext)
    (hname : listStartsWith (xmlName raw) (bytesOf "esi:") = true)
    (hninc : xmlName raw ≠ bytesOf "esi:include")
    (hattrs : parse_attributes attrs = .ok params) :
    parse_tag_entries false [.ok (.empty raw attrs)]
      = .ok [⟨none, some ⟨xmlName raw, none, params⟩⟩] ∧
    transform_esi_string [.ok (.empty raw attrs)] client = .ok [] := by
  have hp : parse_tag_entries false [.ok (.empty raw attrs)]
      = .ok [⟨none, some ⟨xmlName raw, none, params⟩⟩] := by
    simp [parse_tag_entries, hname, hattrs, pcons]
  refine ⟨hp, ?_⟩
  have hex : execute_tag_entries [⟨none, some ⟨xmlName raw, none, params⟩⟩]
      client = .ok [] := by
    simp [execute_tag_entries, execute_entries_from, hninc]
  simp [transform_esi_string, hp, hex, build_output, hmGet]

/-- Claim C4 witness: the amended claim at the concrete tag `<esi:foo/>`. -/
theorem unsupported_empty_tag_dropped_witness :
    listStartsWith (xmlName (bytesOf "esi:foo")) (bytesOf "esi:") = true ∧
    xmlName (bytesOf "esi:foo") ≠ bytesOf "esi:include" ∧
    parse_attributes [] = .ok [] ∧
    parse_tag_entries false [.ok (.empty (bytesOf "esi:foo") [])]
      = .ok [⟨none, some ⟨xmlName (bytesOf "esi:foo"), none, []⟩⟩] ∧
    transform_esi_string [.ok (.empty (bytesOf "esi:foo") [])] clientFail
      = .ok [] := by
  have h := unsupported_empty_tag_dropped (bytesOf "esi:foo") [] [] clientFail
    (by decide) (by decide) (by decide)
  exact ⟨by decide, by decide, by decide, h.1, h.2⟩

/-- Claim C5.  The code at the failing input: for the tag
`<esi:x a="1" a="2"/>` with the attribute name "a" repeated, quick_xml's
attribute iterator (uniqueness checks on by default) reports the repetition
as `Err(DuplicatedAttribute)`, which the source's `.flatten()` silently
discards — so only the first occurrence reaches `map.insert`, attribute
extraction succeeds keeping the first occurrence, no `DuplicateTagAttribute`
error is raised, and the transform succeeds.  The final conjunct shows the
`DuplicateTagAttribute` branch is unreachable from `parse_attributes` for
every attribute list. -/
theorem duplicate_attribute_unreachable :
    parse_attributes [(bytesOf "a", bytesOf "1"), (bytesOf "a", bytesOf "2")]
      = .ok [(bytesOf "a", bytesOf "1")] ∧
    isDuplicateAttrErr (parse_attributes
      [(bytesOf "a", bytesOf "1"), (bytesOf "a", bytesOf "2")]) = false ∧
    transform_esi_string
      [.ok (.empty (bytesOf "esi:x")
        [(bytesOf "a", bytesOf "1"), (bytesOf "a", bytesOf "2")])] clientFail
      = .ok [] ∧
    ∀ attrs, ∃ m, parse_attributes attrs = .ok m := by
  refine ⟨by decide, by decide, by decide, ?_⟩
  intro attrs
  have hn := attrs_flatten_from_nodup attrs []
  exact parse_attributes_from_nodup_ok (attrs_flatten attrs) [] hn.1
    (fun k _ => rfl)

/-- Claim C6, amended.  For every include instruction lacking a `src`
parameter (here: preceded by arbitrary passthrough markup), the transform
fails with `MissingRequiredParameter` whose tag argument is the full
namespaced tag name "esi:include" (not "include") and whose parameter
argument is "src". -/
theorem missing_src_error (pre : List ReadResult) (raw : List Nat)
    (attrs params : List (List Nat × List Nat)) (client : ExecutionContext)
    (hpre : pre.all passthroughResult = true)
    (hname : xmlName raw = bytesOf "esi:include")
    (hattrs : parse_attributes attrs = .ok params)
    (hsrc : hmGet params (bytesOf "src") = none) :
    transform_esi_string (pre ++ [.ok (.empty raw attrs)]) client
      = .err (.MissingRequiredParameter (bytesOf "esi:include")
          (bytesOf "src")) := by
  have hall : ∀ r ∈ pre, passthroughResult r = true := by
    simpa [List.all_eq_true] using hpre
  have hsw : listStartsWith (bytesOf "esi:include") (bytesOf "esi:") = true :=
    by decide
  have hp1 : parse_tag_entries false [ReadResult.ok (.empty raw attrs)]
      = .ok [⟨none, some ⟨bytesOf "esi:include", none, params⟩⟩] := by
    simp [parse_tag_entries, hname, hsw, hattrs, pcons]
  have hparse : parse_tag_entries false (pre ++ [.ok (.empty raw attrs)])
      = .ok (pre.map passEntry
          ++ [⟨none, some ⟨bytesOf "esi:include", none, params⟩⟩]) := by
    rw [parse_pass_append pre _ hall, hp1]
    rfl
  have hentries : ∀ en ∈ pre.map passEntry, en.esi_tag = none := by
    intro en hen
    obtain ⟨r, _, hr⟩ := List.mem_map.mp hen
    cases r <;> simp [passEntry] at hr <;> simp [← hr]
  have hexec : execute_tag_entries
      (pre.map passEntry
        ++ [⟨none, some ⟨bytesOf "esi:include", none, params⟩⟩]) client
      = .err (.MissingRequiredParameter (bytesOf "esi:include")
          (bytesOf "src")) := by
    unfold execute_tag_entries
    rw [exec_skip client _ _ _ hentries 0]
    have hvu : validUtf8 (bytesOf "esi:include") = true := by decide
    simp [execute_entries_from, Tag.get_param, hsrc, hvu]
  simp [transform_esi_string, hparse, hexec]

/-- Claim C6 witness: the amended claim at the concrete document
`x<esi:include/>`. -/
theorem missing_src_error_witness :
    ([ReadResult.ok (.text (bytesOf "x"))].all passthroughResult = true) ∧
    xmlName (bytesOf "esi:include") = bytesOf "esi:include" ∧
    parse_attributes [] = .ok [] ∧
    hmGet ([] : List (List Nat × List Nat)) (bytesOf "src") = none ∧
    transform_esi_string
      ([ReadResult.ok (.text (bytesOf "x"))]
        ++ [.ok (.empty (bytesOf "esi:include") [])]) clientFail
      = .err (.MissingRequiredParameter (bytesOf "esi:include")
          (bytesOf "src")) := by
  refine ⟨by decide, by decide, by decide, by decide, ?_⟩
  exact missing_src_error [.ok (.text (bytesOf "x"))] (bytesOf "esi:include")
    [] [] clientFail (by decide) (by decide) (by decide) (by decide)

/-- Claim C7.  Fetch resolution policy of `send_request`: (1) when the
primary `src` fetch succeeds, its response is returned and the fallback is
never attempted (the traced request list is just `[src]`); (2) when the
primary fails and `alt` is present, the fallback is attempted (trace
`[src, alt]`), a successful fallback response is returned, and a failed
fallback propagates the primary's original error; (3) when the primary fails
and no `alt` was given, the primary's error is propagated. -/
theorem send_request_policy :
    (∀ (client : ExecutionContext) (src : List Nat)
       (alt : Option (List Nat)) (r : Response),
      client (Request.from_url src) = .ok r →
      send_request client src alt = .ok r ∧
      (send_request_traced client src alt).2 = [src]) ∧
    (∀ (client : ExecutionContext) (src a : List Nat) (e : ExecutionError),
      client (Request.from_url src) = .error e →
      (send_request_traced client src (some a)).2 = [src, a] ∧
      (∀ r2, client (Request.from_url a) = .ok r2 →
        send_request client src (some a) = .ok r2) ∧
      (∀ e2, client (Request.from_url a) = .error e2 →
        send_request client src (some a) = .error e)) ∧
    (∀ (client : ExecutionContext) (src : List Nat) (e : ExecutionError),
      client (Request.from_url src) = .error e →
      send_request client src none = .error e) := by
  refine ⟨?_, ?_, ?_⟩
  · intro client src alt r h
    constructor
    · simp [send_request, h]
    · simp [send_request_traced, h]
  · intro client src a e h
    refine ⟨?_, ?_, ?_⟩
    · cases hc : client (Request.from_url a) <;>
        simp [send_request_traced, h, hc]
    · intro r2 h2
      simp [send_request, h, h2]
    · intro e2 h2
      simp [send_request, h, h2]
  · intro client src e h
    simp [send_request, h]

/-- Claim C7 witness: the three policy conjuncts at concrete clients —
an always-succeeding client, a client failing only for "A", and an
always-failing client. -/
theorem send_request_policy_witness :
    clientBody (Request.from_url (bytesOf "A"))
      = .ok ⟨bytesOf "BODY", 200⟩ ∧
    send_request clientBody (bytesOf "A") (some (bytesOf "B"))
      = .ok ⟨bytesOf "BODY", 200⟩ ∧
    (send_request_traced clientBody (bytesOf "A") (some (bytesOf "B"))).2
      = [bytesOf "A"] ∧
    (send_request_traced clientAfails (bytesOf "A") (some (bytesOf "B"))).2
      = [bytesOf "A", bytesOf "B"] ∧
    send_request clientAfails (bytesOf "A") (some (bytesOf "B"))
      = .ok ⟨bytesOf "B", 200⟩ ∧
    send_request clientFail (bytesOf "A") (some (bytesOf "B"))
      = .error .Unknown ∧
    send_request clientFail (bytesOf "A") none = .error .Unknown := by
  have h1 := send_request_policy.1 clientBody (bytesOf "A")
    (some (bytesOf "B")) ⟨bytesOf "BODY", 200⟩ rfl
  have h2 := send_request_policy.2.1 clientAfails (bytesOf "A") (bytesOf "B")
    .Unknown rfl
  have h3 := send_request_policy.2.1 clientFail (bytesOf "A") (bytesOf "B")
    .Unknown rfl
  have h4 := send_request_policy.2.2 clientFail (bytesOf "A") .Unknown rfl
  refine ⟨rfl, h1.1, h1.2, h2.1, ?_, ?_, h4⟩
  · exact h2.2.1 ⟨bytesOf "B", 200⟩ rfl
  · exact h3.2.2 .Unknown rfl

/-- Claim C8, amended.  (1) A remove-block end tag whose raw bytes are valid
UTF-8, encountered while not inside a remove block, always makes the parse
fail with `UnexpectedClosingTag` naming those bytes (with non-UTF-8 bytes the
error construction panics instead — see the counterexample).  (2) For every
well-formed remove-block start/end pair, every event enclosed between them —
whatever it is, as long as it is not itself the closing remove-block end tag
(and not `Eof`, which a reader emits only at the very end) — is discarded and
produces no entries: the parse of the whole block equals the parse of what
follows it. -/
theorem remove_block_semantics :
    (∀ (raw : List Nat) (rest : List ReadResult),
      listStartsWith raw (bytesOf "esi:remove") = true →
      validUtf8 raw = true →
      parse_tag_entries false (.ok (.end_ raw) :: rest)
        = .err (.UnexpectedClosingTag raw)) ∧
    (∀ (sraw eraw : List Nat) (mid rest : List ReadResult),
      listStartsWith sraw (bytesOf "esi:remove") = true →
      listStartsWith eraw (bytesOf "esi:remove") = true →
      mid.all notRemoveEndOrEof = true →
      parse_tag_entries false
          (.ok (.start sraw) :: (mid ++ .ok (.end_ eraw) :: rest))
        = parse_tag_entries false rest) := by
  constructor
  · intro raw rest h1 h2
    simp [parse_tag_entries, h1, h2]
  · intro sraw eraw mid rest h1 h2 hmid
    have hmid2 : ∀ r ∈ mid, notRemoveEndOrEof r = true := by
      simpa [List.all_eq_true] using hmid
    have hstep1 : parse_tag_entries false
        (.ok (.start sraw) :: (mid ++ .ok (.end_ eraw) :: rest))
        = parse_tag_entries true (mid ++ .ok (.end_ eraw) :: rest) := by
      simp [parse_tag_entries, h1]
    rw [hstep1, parse_skip_in_remove mid hmid2]
    simp [parse_tag_entries, h2]

/-- Claim C8 witness: both conjuncts at concrete inputs — the premature end
tag `</esi:remove>` alone, and the block
`<esi:remove>zap<malformed></esi:remove>hi` whose enclosed text and reader
error are both discarded. -/
theorem remove_block_semantics_witness :
    listStartsWith (bytesOf "esi:remove") (bytesOf "esi:remove") = true ∧
    validUtf8 (bytesOf "esi:remove") = true ∧
    parse_tag_entries false [.ok (.end_ (bytesOf "esi:remove"))]
      = .err (.UnexpectedClosingTag (bytesOf "esi:remove")) ∧
    ([ReadResult.ok (.text (bytesOf "zap")), .err 7].all notRemoveEndOrEof
      = true) ∧
    parse_tag_entries false
        (.ok (.start (bytesOf "esi:remove"))
          :: ([ReadResult.ok (.text (bytesOf "zap")), .err 7]
            ++ .ok (.end_ (bytesOf "esi:remove"))
              :: [ReadResult.ok (.text (bytesOf "hi"))]))
      = parse_tag_entries false [ReadResult.ok (.text (bytesOf "hi"))] := by
  refine ⟨by decide, by decide, ?_, by decide, ?_⟩
  · exact remove_block_semantics.1 (bytesOf "esi:remove") [] (by decide)
      (by decide)
  · exact remove_block_semantics.2 (bytesOf "esi:remove")
      (bytesOf "esi:remove") [.ok (.text (bytesOf "zap")), .err 7]
      [.ok (.text (bytesOf "hi"))] (by decide) (by decide) (by decide)

/-- Claim C9.  For every well-formed document containing no ESI instructions
(every reader event passes through: no "esi:remove" start or end tags, no
self-closing "esi:" tags, no reader errors), the transform succeeds and its
output equals the input byte-for-byte (the concatenation of the events'
serialized forms); consequently, for any reader that reproduces the stream
from those bytes, applying the transform any number of times is a no-op. -/
theorem transform_no_esi_identity (s : List ReadResult)
    (client : ExecutionContext)
    (h : s.all passthroughResult = true) :
    transform_esi_string s client = .ok (renderStream s) ∧
    ∀ read : List Nat → List ReadResult,
      read (renderStream s) = s →
      ∀ n, Nat.iterate
          (fun b => presultGetD (transform_esi_string (read b) client) b) n
          (renderStream s)
        = renderStream s := by
  have hall : ∀ r ∈ s, passthroughResult r = true := by
    simpa [List.all_eq_true] using h
  have hparse : parse_tag_entries false s = .ok (s.map passEntry) := by
    have hap := parse_pass_append s [] hall
    simpa [pconsMany, parse_tag_entries] using hap
  have hentries : ∀ en ∈ s.map passEntry, en.esi_tag = none := by
    intro en hen
    obtain ⟨r, _, hr⟩ := List.mem_map.mp hen
    cases r <;> simp [passEntry] at hr <;> simp [← hr]
  have hexec : execute_tag_entries (s.map passEntry) client = .ok [] := by
    unfold execute_tag_entries
    have hes := exec_skip client (s.map passEntry) [] [] hentries 0
    simpa using hes
  have htr : transform_esi_string s client = .ok (renderStream s) := by
    simp [transform_esi_string, hparse, hexec, build_pass]
  refine ⟨htr, ?_⟩
  intro read hread n
  induction n with
  | zero => simp
  | succ n ihn =>
    rw [Function.iterate_succ_apply]
    have hfix : presultGetD
        (transform_esi_string (read (renderStream s)) client) (renderStream s)
        = renderStream s := by
      simp [hread, htr, presultGetD]
    rw [hfix]
    exact ihn

/-- Claim C9 witness: the instruction-free document "hi", with a reader that
reproduces its event stream, transformed twice. -/
theorem transform_no_esi_identity_witness :
    ([ReadResult.ok (.text (bytesOf "hi"))].all passthroughResult = true) ∧
    transform_esi_string [.ok (.text (bytesOf "hi"))] clientFail
      = .ok (renderStream [.ok (.text (bytesOf "hi"))]) ∧
    Nat.iterate
        (fun b => presultGetD
          (transform_esi_string (readHi b) clientFail) b) 2
        (renderStream [.ok (.text (bytesOf "hi"))])
      = renderStream [.ok (.text (bytesOf "hi"))] := by
  have h := transform_no_esi_identity [.ok (.text (bytesOf "hi"))] clientFail
    (by decide)
  exact ⟨by decide, h.1, h.2 readHi (by decide) 2⟩
